import Mathlib

/-!
Verification of the BeanFlow video generator
(`src/beanflow_video_generator.py`) against its specification.

The Python program is a linear pipeline: synthesize audio, build a list of
visual segments (text slides or downloaded stock clips), concatenate them and
mux with the audio.  We embed the pure decision logic of that pipeline:

* the Pexels client (`search_pexels_videos`, `download_video`) as functions of
  an explicit HTTP outcome;
* the slide renderer's layout computation (`create_text_slide`) over an
  abstract text-measuring function standing for the PIL font metrics;
* the two composers (`create_video_without_pexels`,
  `create_video_with_pexels`) as functions from an environment (search
  results, download outcomes, clip durations) to the list of requested
  segments, with durations in ℚ standing for the exact-arithmetic reading of
  the Python float computations;
* the mode selection of `generate_video` and `main`.

External libraries (moviepy, PIL, textwrap, requests) are modelled by their
documented observable behaviour where the spec's claims depend on it.
-/

namespace BeanFlow

/-! Section: Python-style primitives -/

/-- Python `int(q)` on a rational: truncation toward zero. -/
def pythonInt (q : ℚ) : ℤ := Int.tdiv q.num (q.den : ℤ)

/-- Truthiness of an optional Python string: `None` and `""` are falsy.
Used for `self.pexels_api_key` tests. -/
def pyTruthy : Option String → Bool
  | none => false
  | some s => !s.data.isEmpty

/-- Python `str.strip()` on the character list of a string: remove leading
and trailing whitespace. -/
def pyStripData (cs : List Char) : List Char :=
  ((cs.dropWhile Char.isWhitespace).reverse.dropWhile Char.isWhitespace).reverse

/-- Python `str.strip()`. -/
def pyStrip (s : String) : String := ⟨pyStripData s.data⟩

/-- Python `str.split(sep)` for a one-character separator, on character
lists: splits at every occurrence of `c`, keeping empty parts
(`"".split(c) = ['']`). -/
def splitOnChar (c : Char) : List Char → List (List Char)
  | [] => [[]]
  | x :: xs =>
    if x = c then [] :: splitOnChar c xs
    else
      match splitOnChar c xs with
      | [] => [[x]]
      | l :: ls => (x :: l) :: ls

/-- Splitting at every whitespace character, keeping empty parts; Python
`str.split()` (and `textwrap`'s chunking after whitespace replacement) is
this with the empty parts removed. -/
def splitWs : List Char → List (List Char)
  | [] => [[]]
  | x :: xs =>
    if x.isWhitespace then [] :: splitWs xs
    else
      match splitWs xs with
      | [] => [[x]]
      | l :: ls => (x :: l) :: ls

/-- Models Python `str.title()` for the ASCII query strings: an alphabetic
character is uppercased when the previous character is not alphabetic and
lowercased otherwise; non-alphabetic characters are kept. -/
def titleCaseGo : Bool → List Char → List Char
  | _, [] => []
  | prevAlpha, c :: cs =>
    if c.isAlpha then
      (if prevAlpha then c.toLower else c.toUpper) :: titleCaseGo true cs
    else
      c :: titleCaseGo false cs

/-- Python `str.title()` (ASCII model). -/
def titleCase (s : String) : String := ⟨titleCaseGo false s.data⟩

/-! Section: Stock footage client data model

A Pexels search response carries a list of video entries, each with a list of
quality-tagged file variants (`video_files`); a missing `video_files` key is
modelled as the empty list, matching the falsiness test in the composer. -/

/-- One entry of a video's `video_files` list. -/
structure Variant where
  quality : Option String
  link : String
  deriving DecidableEq

/-- One video entry of a Pexels search response. -/
structure Video where
  video_files : List Variant
  deriving DecidableEq

/-- Outcome of the HTTP GET in `search_pexels_videos`: an exception, or a
parsed JSON body whose optional `videos` field holds the entries
(`data.get("videos", [])`). -/
def SearchHttp := Except String (Option (List Video))

/-- `search_pexels_videos` (src lines 40–56): returns `[]` when no API key is
configured (falsy key) or when the request raises; otherwise the `videos`
field of the response, defaulting to `[]`. -/
def search_pexels_videos (apiKey : Option String)
    (resp : Except String (Option (List Video))) : List Video :=
  if !pyTruthy apiKey then []
  else
    match resp with
    | .error _ => []
    | .ok data => data.getD []

/-- `download_video` (src lines 58–72): on any request/write exception the
caught handler returns `None` (modelled `none`); otherwise the local file
path (output directory joined with `filename`). -/
def download_video (resp : Except String Unit) (outputDir filename : String) :
    Option String :=
  match resp with
  | .error _ => none
  | .ok _ => some (outputDir ++ "/" ++ filename)

/-! Section: Visual segments

A segment records what the composer requested from moviepy: a slide held for
a duration, a downloaded clip looped up to a target duration
(`clip.loop(duration=target)`), or a downloaded clip trimmed
(`clip.subclip(start, target)`).  moviepy's documented behaviour gives each
the recorded target duration. -/

/-- A visual segment as requested by the composers. -/
inductive Segment where
  | slide (text : String) (dur : ℚ) (fontsize : ℕ)
  | footageLoop (path : String) (origDur targetDur : ℚ)
  | footageTrim (path : String) (start targetDur : ℚ)
  deriving DecidableEq

/-- Duration of a segment (moviepy semantics: `loop(duration=d)` and
`subclip(0, d)` both yield duration `d`; a slide is held for `dur`). -/
def Segment.duration : Segment → ℚ
  | .slide _ d _ => d
  | .footageLoop _ _ t => t
  | .footageTrim _ _ t => t

/-! Section: Slide-only composer -/

/-- The fixed narrative beats of `create_video_without_pexels`
(src lines 140–153): (label text, nominal duration). -/
def scenes : List (String × ℚ) :=
  [("BeanFlow\nAI-Powered Coffee Shop Solution", 3),
   ("The Problem:\nBottleneck at the Register", 8),
   ("Customers wait...\nBaristas are stressed...\nRevenue is lost", 8),
   ("The Solution:\nBeanFlow AI System", 5),
   ("Part 1:\nSeamless Mobile/Kiosk Ordering", 6),
   ("Part 2:\nPredictive AI Engine", 8),
   ("Forecast orders before\nthey're placed", 7),
   ("Pre-prep ingredients\nduring payment", 6),
   ("Result:\n20% Faster Service", 8),
   ("More customers served\nHigher revenue\nNo extra staff needed", 8),
   ("BeanFlow:\nYour Competitive Advantage", 5),
   ("Let's discuss your ROI", 3)]

/-- `create_video_without_pexels` (src lines 131–169): scales every nominal
beat duration by `total_duration / total_scene_duration` and renders one
slide per beat at fontsize 70.  `T` is the measured audio duration. -/
def create_video_without_pexels (T : ℚ) : List Segment :=
  let total_scene_duration : ℚ := (scenes.map Prod.snd).sum
  let scale_factor : ℚ := T / total_scene_duration
  scenes.map (fun sc => .slide sc.1 (sc.2 * scale_factor) 70)

/-! Section: Footage composer -/

/-- The fixed search queries of `create_video_with_pexels`
(src lines 180–189). -/
def queries : List String :=
  ["coffee shop busy",
   "coffee barista working",
   "people waiting in line",
   "mobile phone ordering",
   "artificial intelligence",
   "coffee preparation",
   "happy customers coffee",
   "business success"]

/-- Variant choice (src line 201):
`next((v for v in video_files if v.get("quality") == "hd"), video_files[0])`
on the non-empty list `f :: fs`. -/
def selectVariant (f : Variant) (fs : List Variant) : Variant :=
  ((f :: fs).find? (fun v => v.quality == some "hd")).getD f

/-- Environment of one footage-mode run: the outcome of each provider call.
`search q` is the list returned by `self.search_pexels_videos(q, per_page=3)`;
`download url filename` the result of `self.download_video(url, filename)`;
`clipDuration path` the duration moviepy reports for the downloaded file. -/
structure PexelsEnv where
  search : String → List Video
  download : String → String → Option String
  clipDuration : String → ℚ

/-- The body of the per-query loop of `create_video_with_pexels`
(src lines 194–224): search, examine the first result's file variants, pick
the hd variant, download, then loop or trim to `dpc` — falling back to a
slide of the title-cased query (default fontsize 60) when the search result
list is empty, the first result has no file variants, or the download
fails. -/
def composeSegment (env : PexelsEnv) (i : ℕ) (query : String) (dpc : ℚ) :
    Segment :=
  match env.search query with
  | [] => .slide (titleCase query) dpc 60
  | v :: _ =>
    match v.video_files with
    | [] => .slide (titleCase query) dpc 60
    | f :: fs =>
      let hd_video := selectVariant f fs
      match env.download hd_video.link ("clip_" ++ toString i ++ ".mp4") with
      | none => .slide (titleCase query) dpc 60
      | some path =>
        if env.clipDuration path < dpc then
          .footageLoop path (env.clipDuration path) dpc
        else
          .footageTrim path 0 dpc

/-- `create_video_with_pexels` (src lines 171–230): one segment per query,
each allotted `T / len(queries)` where `T` is the measured audio duration,
concatenated in query order. -/
def create_video_with_pexels (env : PexelsEnv) (T : ℚ) : List Segment :=
  let duration_per_clip : ℚ := T / (queries.length : ℚ)
  queries.enum.map (fun p => composeSegment env p.1 p.2 duration_per_clip)

/-! Section: Slide renderer (`create_text_slide`, src lines 74–129)

The renderer draws word-wrapped, centered text on a fixed background.  We
embed its layout computation; the PIL text-measuring call
`draw.textbbox((0, 0), line, font=font)` is abstracted as a function
`measure : String → ℤ` giving each line's bounding-box width
(`bbox[2] - bbox[0]`). -/

/-- `chars_per_line` (src lines 101–102):
`int((size[0] - 200) / (fontsize * 0.6))`.  The float products involved are
exact at the relevant magnitudes, so the rational reading is faithful. -/
def charsPerLine (width fontsize : ℕ) : ℤ :=
  pythonInt (((width : ℚ) - 200) / ((fontsize : ℚ) * (6 / 10)))

/-- `line_height` (src line 109): `int(fontsize * 1.5)`. -/
def lineHeight (fontsize : ℕ) : ℤ := pythonInt ((fontsize : ℚ) * (3 / 2))

/-- The whitespace-separated words of a paragraph.  Models the chunking
`textwrap` performs after collapsing whitespace (hyphen break points are
not modelled). -/
def pyWords (cs : List Char) : List (List Char) :=
  (splitWs cs).filter (fun w => w ≠ [])

/-- Greedy fill, modelling `textwrap.fill(paragraph, width=w)` with default
settings: words are packed onto the current line `cur` separated by single
spaces while the line stays within `w` characters; a word longer than `w`
is broken (`break_long_words=True`), its prefix filling the space left on
the current line.  Hyphen break points (`break_on_hyphens`) are not
modelled.  `w = 0` raises in Python (`ValueError`) and is given an
arbitrary value here; all theorems assume `0 < w`. -/
def wrapWords (w : ℕ) (cur : List Char) (ws : List (List Char)) :
    List (List Char) :=
  match ws with
  | [] => if cur.isEmpty then [] else [cur]
  | word :: rest =>
    if _hw : w = 0 then (if cur.isEmpty then [] else [cur]) ++ ws
    else if hcur : cur.isEmpty then
      if word.length ≤ w then wrapWords w word rest
      else word.take w :: wrapWords w [] (word.drop w :: rest)
    else
      if cur.length + 1 + word.length ≤ w then
        wrapWords w (cur ++ ' ' :: word) rest
      else if _hlong : w < word.length ∧ cur.length + 2 ≤ w then
        (cur ++ ' ' :: word.take (w - cur.length - 1))
          :: wrapWords w [] (word.drop (w - cur.length - 1) :: rest)
      else cur :: wrapWords w [] (word :: rest)
  termination_by ((ws.map List.length).sum + ws.length, cur.length)
  decreasing_by
  · simp only [List.map_cons, List.sum_cons, List.length_cons]
    apply Prod.Lex.left
    omega
  · simp only [List.map_cons, List.sum_cons, List.length_cons,
      List.length_drop]
    apply Prod.Lex.left
    omega
  · simp only [List.map_cons, List.sum_cons, List.length_cons]
    apply Prod.Lex.left
    omega
  · simp only [List.map_cons, List.sum_cons, List.length_cons,
      List.length_drop]
    apply Prod.Lex.left
    omega
  · apply Prod.Lex.right
    have hne : cur ≠ [] := by
      intro h
      rw [h] at hcur
      exact hcur rfl
    exact List.length_pos.mpr hne

/-- The lines `textwrap.fill(p, width=w)` contributes for one paragraph
(the code splits the filled string back on newlines, src lines 103–104). -/
def wrapParagraph (w : ℕ) (p : List Char) : List (List Char) :=
  wrapWords w [] (pyWords p)

/-- The line list of `create_text_slide` (src lines 95–106): split the text
on explicit newlines; a paragraph with a non-blank strip is word-wrapped,
a blank one contributes a single empty line. -/
def slideLines (width fontsize : ℕ) (text : String) : List (List Char) :=
  (splitOnChar '\n' text.data).flatMap fun p =>
    if pyStripData p = [] then [[]]
    else wrapParagraph (charsPerLine width fontsize).toNat p

/-- The drawing loop of `create_text_slide` (src lines 113–121): emits one
`(x, y, line)` draw call per line, horizontally centering each line with its
measured width and advancing `y` by the line height. -/
def drawCalls (measure : List Char → ℤ) (width : ℕ) (lh : ℤ) :
    ℤ → List (List Char) → List (ℤ × ℤ × List Char)
  | _, [] => []
  | y, l :: ls =>
    (Int.fdiv ((width : ℤ) - measure l) 2, y, l)
      :: drawCalls measure width lh (y + lh) ls

/-- The full layout of `create_text_slide` (src lines 95–121): wrap the text,
vertically center the line block (`y = (size[1] - total_height) // 2`,
src line 111), then emit the draw calls. -/
def create_text_slide_layout (width height fontsize : ℕ)
    (measure : List Char → ℤ) (text : String) : List (ℤ × ℤ × List Char) :=
  let lines := slideLines width fontsize text
  let lh := lineHeight fontsize
  let total_height := (lines.length : ℤ) * lh
  let y0 := Int.fdiv ((height : ℤ) - total_height) 2
  drawCalls measure width lh y0 lines

/-! Section: Font resolution (src lines 83–93) -/

/-- The font ultimately used by `create_text_slide`. -/
inductive FontKind where
  | helvetica
  | arial
  | bitmapDefault
  deriving DecidableEq

/-- Which `ImageFont.truetype` calls succeed on this system.  The built-in
bitmap font `ImageFont.load_default()` takes no path and is total. -/
structure FontEnv where
  helveticaOk : Bool
  arialOk : Bool

/-- Font resolution of `create_text_slide` (src lines 83–93): try Helvetica,
then Arial, and fall back to the built-in bitmap font with the fontsize
forced to 20.  Total by construction: every environment yields a font. -/
def resolveFont (env : FontEnv) (fontsize : ℕ) : FontKind × ℕ :=
  if env.helveticaOk then (.helvetica, fontsize)
  else if env.arialOk then (.arial, fontsize)
  else (.bitmapDefault, 20)

/-! Section: Mode selection -/

/-- The two composition strategies of `generate_video`. -/
inductive Mode where
  | footage
  | slideOnly
  deriving DecidableEq

/-- Strategy choice of `generate_video` (src lines 242–245):
`if use_pexels and self.pexels_api_key`. -/
def generate_video_mode (use_pexels : Bool) (apiKey : Option String) : Mode :=
  if use_pexels && pyTruthy apiKey then .footage else .slideOnly

/-- The credential as `main` (src lines 290–295) stores it: the stripped
prompt input when non-empty (`set_pexels_api_key`), else left `None`. -/
def mainApiKey (input : String) : Option String :=
  if (pyStrip input).data.isEmpty then none else some (pyStrip input)

/-- The `use_pexels` flag as `main` computes it: `True` exactly when the
stripped prompt input is non-empty. -/
def mainUsePexels (input : String) : Bool := !(pyStrip input).data.isEmpty

/-- The strategy the pipeline runs for a given interactive input. -/
def mainMode (input : String) : Mode :=
  generate_video_mode (mainUsePexels input) (mainApiKey input)

/-! Part: Helper lemmas -/

lemma create_video_without_pexels_length (T : ℚ) :
    (create_video_without_pexels T).length = scenes.length := by
  simp [create_video_without_pexels]

/-- Every branch of the per-query loop requests a segment of exactly the
allotted duration. -/
lemma composeSegment_duration (env : PexelsEnv) (i : ℕ) (q : String)
    (dpc : ℚ) : (composeSegment env i q dpc).duration = dpc := by
  rcases hsq : env.search q with _ | ⟨v, vs⟩
  · simp [composeSegment, hsq, Segment.duration]
  · rcases hvf : v.video_files with _ | ⟨f, fs⟩
    · simp [composeSegment, hsq, hvf, Segment.duration]
    · rcases hdl : env.download (selectVariant f fs).link
          ("clip_" ++ toString i ++ ".mp4") with _ | path
      · simp [composeSegment, hsq, hvf, hdl, Segment.duration]
      · by_cases hlt : env.clipDuration path < dpc <;>
          simp [composeSegment, hsq, hvf, hdl, hlt, Segment.duration]

lemma queries_length_q : ((queries.length : ℕ) : ℚ) = 8 := by
  norm_num [queries]

/-! Part: Claims -/

/-- C1: In slide-only mode, each of the twelve fixed narrative beats with
nominal duration `d_i` is requested with duration
`d_i * (T / sum of nominal durations)` for measured audio duration `T`, and
the twelve scaled durations sum to exactly `T` in exact arithmetic. -/
theorem slide_only_scaling (T : ℚ) (i : ℕ) (h : i < scenes.length) :
    scenes.length = 12 ∧
    (create_video_without_pexels T).length = 12 ∧
    ((create_video_without_pexels T).get
        ⟨i, by rw [create_video_without_pexels_length]; exact h⟩).duration
      = (scenes.get ⟨i, h⟩).2 * (T / (scenes.map Prod.snd).sum) ∧
    ((create_video_without_pexels T).map Segment.duration).sum = T := by
  refine ⟨rfl, rfl, ?_, ?_⟩
  · simp [create_video_without_pexels, List.get_map, Segment.duration]
  · simp [create_video_without_pexels, scenes, Segment.duration]
    ring

theorem slide_only_scaling_witness :
    (0 : ℕ) < scenes.length ∧
    (scenes.length = 12 ∧
     (create_video_without_pexels 150).length = 12 ∧
     ((create_video_without_pexels 150).get ⟨0, by decide⟩).duration
       = (scenes.get ⟨0, by decide⟩).2 * (150 / (scenes.map Prod.snd).sum) ∧
     ((create_video_without_pexels 150).map Segment.duration).sum = 150) :=
  ⟨by decide, slide_only_scaling 150 0 (by decide)⟩

/-- C2: In footage mode the composer produces exactly one segment per
query of the fixed eight-query list, each allotted `T / 8` for measured
audio duration `T`, and the total of the visual track's durations is
exactly `T` in exact arithmetic. -/
theorem footage_equal_shares (env : PexelsEnv) (T : ℚ) :
    (create_video_with_pexels env T).length = 8 ∧
    (∀ seg ∈ create_video_with_pexels env T, seg.duration = T / 8) ∧
    ((create_video_with_pexels env T).map Segment.duration).sum = T := by
  refine ⟨rfl, ?_, ?_⟩
  · intro seg hseg
    unfold create_video_with_pexels at hseg
    simp only [List.mem_map] at hseg
    obtain ⟨p, _, rfl⟩ := hseg
    rw [composeSegment_duration, queries_length_q]
  · unfold create_video_with_pexels
    rw [List.map_map]
    have h1 : (Segment.duration ∘ fun p : ℕ × String =>
        composeSegment env p.1 p.2 (T / ((queries.length : ℕ) : ℚ)))
        = Function.const (ℕ × String) (T / ((queries.length : ℕ) : ℚ)) := by
      funext p
      simp [composeSegment_duration, Function.const]
    rw [h1, List.map_const, List.sum_replicate, List.enum_length,
      nsmul_eq_mul, queries_length_q]
    ring

/-- C3: In footage mode, a successfully downloaded clip strictly shorter
than the allotted duration is looped to exactly that duration; otherwise it
is trimmed to exactly that duration starting at offset zero. -/
theorem footage_loop_trim (env : PexelsEnv) (i : ℕ) (q : String) (dpc : ℚ)
    (v : Video) (vs : List Video) (f : Variant) (fs : List Variant)
    (path : String)
    (hs : env.search q = v :: vs)
    (hf : v.video_files = f :: fs)
    (hd : env.download (selectVariant f fs).link
            ("clip_" ++ toString i ++ ".mp4") = some path) :
    (env.clipDuration path < dpc →
      composeSegment env i q dpc
        = .footageLoop path (env.clipDuration path) dpc) ∧
    (¬ env.clipDuration path < dpc →
      composeSegment env i q dpc = .footageTrim path 0 dpc) ∧
    (composeSegment env i q dpc).duration = dpc := by
  refine ⟨?_, ?_, composeSegment_duration env i q dpc⟩ <;>
    intro h <;> simp [composeSegment, hs, hf, hd, h]

/-- A concrete environment for exercising the loop/trim branches: one search
result with a single hd variant, a succeeding download, clip duration 1. -/
def loopEnv : PexelsEnv where
  search := fun _ => [⟨[⟨some "hd", "http://v"⟩]⟩]
  download := fun _ _ => some "beanflow_output/clip_0.mp4"
  clipDuration := fun _ => 1

theorem footage_loop_trim_witness :
    loopEnv.search "coffee shop busy" = [⟨[⟨some "hd", "http://v"⟩]⟩] ∧
    (⟨[⟨some "hd", "http://v"⟩]⟩ : Video).video_files
      = [⟨some "hd", "http://v"⟩] ∧
    loopEnv.download (selectVariant ⟨some "hd", "http://v"⟩ []).link
      ("clip_" ++ toString 0 ++ ".mp4") = some "beanflow_output/clip_0.mp4" ∧
    ((loopEnv.clipDuration "beanflow_output/clip_0.mp4" < 2 →
       composeSegment loopEnv 0 "coffee shop busy" 2
         = .footageLoop "beanflow_output/clip_0.mp4"
             (loopEnv.clipDuration "beanflow_output/clip_0.mp4") 2) ∧
     (¬ loopEnv.clipDuration "beanflow_output/clip_0.mp4" < 2 →
       composeSegment loopEnv 0 "coffee shop busy" 2
         = .footageTrim "beanflow_output/clip_0.mp4" 0 2) ∧
     (composeSegment loopEnv 0 "coffee shop busy" 2).duration = 2) :=
  ⟨rfl, rfl, rfl,
    footage_loop_trim loopEnv 0 "coffee shop busy" 2 _ [] _ [] _ rfl rfl rfl⟩

/-- C4: In footage mode, a query whose search returns no results, whose
first result has no file variants, or whose download fails contributes
exactly one fallback slide rendering the title-cased query text at the
beat's allotted duration; with every search empty the track is exactly the
eight fallback slides in query order. -/
theorem footage_fallback (env : PexelsEnv) (T : ℚ) :
    (∀ i q dpc,
      (env.search q = [] ∨
       (∃ v vs, env.search q = v :: vs ∧ v.video_files = []) ∨
       (∃ v vs f fs, env.search q = v :: vs ∧ v.video_files = f :: fs ∧
         env.download (selectVariant f fs).link
           ("clip_" ++ toString i ++ ".mp4") = none)) →
      composeSegment env i q dpc = .slide (titleCase q) dpc 60) ∧
    ((∀ q, env.search q = []) →
      create_video_with_pexels env T
        = queries.enum.map (fun p => .slide (titleCase p.2) (T / 8) 60)) ∧
    queries.map titleCase
      = ["Coffee Shop Busy", "Coffee Barista Working",
         "People Waiting In Line", "Mobile Phone Ordering",
         "Artificial Intelligence", "Coffee Preparation",
         "Happy Customers Coffee", "Business Success"] ∧
    queries.length = 8 := by
  refine ⟨?_, ?_, by decide, rfl⟩
  · rintro i q dpc (h | ⟨v, vs, hsq, hvf⟩ | ⟨v, vs, f, fs, hsq, hvf, hdl⟩)
    · simp [composeSegment, h]
    · simp [composeSegment, hsq, hvf]
    · simp [composeSegment, hsq, hvf, hdl]
  · intro h
    unfold create_video_with_pexels
    refine List.map_congr_left ?_
    intro p _
    simp [composeSegment, h p.2, queries_length_q]

/-- A provider environment in which every search fails (for example, an
invalid credential): `search_pexels_videos` then always yields `[]`. -/
def emptyEnv : PexelsEnv where
  search := fun _ => []
  download := fun _ _ => none
  clipDuration := fun _ => 0

theorem footage_fallback_witness :
    composeSegment emptyEnv 0 "coffee shop busy" 5
      = .slide "Coffee Shop Busy" 5 60 ∧
    create_video_with_pexels emptyEnv 8
      = queries.enum.map (fun p => .slide (titleCase p.2) ((8 : ℚ) / 8) 60) := by
  constructor
  · rw [(footage_fallback emptyEnv 8).1 0 "coffee shop busy" 5 (Or.inl rfl)]
    decide
  · exact (footage_fallback emptyEnv 8).2.1 (fun q => rfl)

/-- C5: At the top level the strategy follows the stock-footage flag:
`main` enables the flag exactly when a credential was supplied, so the
pipeline runs footage mode iff the flag is enabled, and an omitted
credential yields slide-only mode. -/
theorem mode_selected_by_flag (input : String) :
    (mainMode input = .footage ↔ mainUsePexels input = true) ∧
    (pyStrip input = "" → mainMode input = .slideOnly) := by
  constructor
  · unfold mainMode generate_video_mode mainUsePexels mainApiKey pyTruthy
    by_cases h : (pyStrip input).data.isEmpty <;> simp [h]
  · intro h
    have he : (pyStrip input).data.isEmpty = true := by
      rw [h]
      rfl
    unfold mainMode generate_video_mode mainUsePexels mainApiKey
    simp [he]

theorem mode_selected_by_flag_witness :
    pyStrip "" = "" ∧ mainMode "" = Mode.slideOnly :=
  ⟨by decide, (mode_selected_by_flag "").2 (by decide)⟩

/-- C6: Provider failures are non-fatal at the client interface: search
returns `[]` when no API key is configured or the request raises (and the
response's `videos` field otherwise), and download returns `none` on a
raised request/write error and a local path on success. -/
theorem client_failures_nonfatal :
    (∀ (k : Option String) (resp : Except String (Option (List Video))),
      pyTruthy k = false → search_pexels_videos k resp = []) ∧
    (∀ (k : Option String) (e : String),
      search_pexels_videos k (.error e) = []) ∧
    (∀ (k : Option String) (vs : Option (List Video)), pyTruthy k = true →
      search_pexels_videos k (.ok vs) = vs.getD []) ∧
    (∀ (e d f : String), download_video (.error e) d f = none) ∧
    (∀ (d f : String), download_video (.ok ()) d f = some (d ++ "/" ++ f)) := by
  refine ⟨?_, ?_, ?_, fun e d f => rfl, fun d f => rfl⟩
  · intro k resp h
    simp [search_pexels_videos, h]
  · intro k e
    unfold search_pexels_videos
    by_cases h : pyTruthy k <;> simp [h]
  · intro k vs h
    simp [search_pexels_videos, h]

theorem client_failures_nonfatal_witness :
    pyTruthy none = false ∧
    search_pexels_videos none (.ok (some [⟨[]⟩])) = [] ∧
    pyTruthy (some "key") = true ∧
    search_pexels_videos (some "key") (.ok (some [⟨[]⟩])) = [⟨[]⟩] ∧
    download_video (.error "timeout") "beanflow_output" "clip_0.mp4" = none :=
  ⟨rfl, client_failures_nonfatal.1 none _ rfl, rfl,
    client_failures_nonfatal.2.2.1 (some "key") _ rfl,
    client_failures_nonfatal.2.2.2.1 "timeout" _ _⟩

/-- `List.find?` returns the marked element of a decomposition whose prefix
contains no match. -/
lemma find?_append_cons {α : Type} (p : α → Bool) (as : List α) (v : α)
    (bs : List α) (ha : ∀ a ∈ as, p a = false) (hv : p v = true) :
    (as ++ v :: bs).find? p = some v := by
  induction as with
  | nil => simp [List.find?_cons_of_pos, hv]
  | cons a as ih =>
    have hpa : p a = false := ha a (by simp)
    rw [List.cons_append, List.find?_cons_of_neg _ (by simp [hpa])]
    exact ih (fun x hx => ha x (by simp [hx]))

/-- C7: Among the chosen candidate's file variants, the first variant
tagged `"hd"` is selected when one exists; otherwise the first variant of
the list. -/
theorem hd_variant_preferred (f : Variant) (fs : List Variant) :
    ((∀ v ∈ f :: fs, v.quality ≠ some "hd") → selectVariant f fs = f) ∧
    (∀ as v bs, f :: fs = as ++ v :: bs → v.quality = some "hd" →
      (∀ a ∈ as, a.quality ≠ some "hd") → selectVariant f fs = v) := by
  constructor
  · intro h
    unfold selectVariant
    rw [List.find?_eq_none.mpr ?_]
    · rfl
    · intro x hx
      simp [h x hx]
  · intro as v bs heq hv ha
    unfold selectVariant
    rw [heq, find?_append_cons _ as v bs ?_ ?_]
    · rfl
    · intro a haas
      have := ha a haas
      simp [this]
    · simp [hv]

theorem hd_variant_preferred_witness :
    ((⟨some "sd", "http://a"⟩ : Variant) :: [⟨some "hd", "http://b"⟩]
      = [⟨some "sd", "http://a"⟩] ++ ⟨some "hd", "http://b"⟩ :: []) ∧
    (⟨some "hd", "http://b"⟩ : Variant).quality = some "hd" ∧
    (∀ a ∈ ([⟨some "sd", "http://a"⟩] : List Variant),
      a.quality ≠ some "hd") ∧
    selectVariant ⟨some "sd", "http://a"⟩ [⟨some "hd", "http://b"⟩]
      = ⟨some "hd", "http://b"⟩ :=
  ⟨rfl, rfl, by decide,
    (hd_variant_preferred _ _).2 [⟨some "sd", "http://a"⟩]
      ⟨some "hd", "http://b"⟩ [] rfl rfl (by decide)⟩

/-- C10: (implicit) Only the first entry of the search-result list is
examined: the requested segment is unchanged under any change of the tail,
and a first result without file variants forces the fallback slide even
when a later result carries variants. -/
theorem first_result_only (env env' : PexelsEnv) (i : ℕ) (q : String)
    (dpc : ℚ) (v : Video) (vs vs' : List Video)
    (hdl : env.download = env'.download)
    (hcd : env.clipDuration = env'.clipDuration)
    (h : env.search q = v :: vs) (h' : env'.search q = v :: vs') :
    composeSegment env i q dpc = composeSegment env' i q dpc ∧
    (v.video_files = [] →
      composeSegment env i q dpc = .slide (titleCase q) dpc 60) := by
  constructor
  · simp [composeSegment, h, h', hdl, hcd]
  · intro hvf
    simp [composeSegment, h, hvf]

/-- Environment whose first search result has no file variants while the
second result does. -/
def tailEnvA : PexelsEnv where
  search := fun _ => [⟨[]⟩, ⟨[⟨some "hd", "http://good"⟩]⟩]
  download := fun _ _ => some "beanflow_output/clip_0.mp4"
  clipDuration := fun _ => 10

/-- Same environment with the tail of the search results removed. -/
def tailEnvB : PexelsEnv where
  search := fun _ => [⟨[]⟩]
  download := fun _ _ => some "beanflow_output/clip_0.mp4"
  clipDuration := fun _ => 10

theorem first_result_only_witness :
    tailEnvA.search "coffee shop busy"
      = ⟨[]⟩ :: [⟨[⟨some "hd", "http://good"⟩]⟩] ∧
    tailEnvB.search "coffee shop busy" = ⟨[]⟩ :: [] ∧
    (⟨[]⟩ : Video).video_files = [] ∧
    composeSegment tailEnvA 0 "coffee shop busy" 5
      = composeSegment tailEnvB 0 "coffee shop busy" 5 ∧
    composeSegment tailEnvA 0 "coffee shop busy" 5
      = .slide "Coffee Shop Busy" 5 60 := by
  have h := first_result_only tailEnvA tailEnvB 0 "coffee shop busy" 5
    ⟨[]⟩ [⟨[⟨some "hd", "http://good"⟩]⟩] [] rfl rfl rfl rfl
  refine ⟨rfl, rfl, rfl, h.1, ?_⟩
  rw [h.2 rfl]
  decide

/-- Every line the greedy fill emits stays within the wrap width, provided
the carried current line does. -/
lemma wrapWords_sublen (w : ℕ) (hw : 0 < w) :
    ∀ (cur : List Char) (ws : List (List Char)), cur.length ≤ w →
      ∀ l ∈ wrapWords w cur ws, l.length ≤ w := by
  intro cur ws
  induction cur, ws using wrapWords.induct w with
  | case1 cur hc =>
    intro hcur l hl
    rw [wrapWords.eq_def] at hl
    simp [hc] at hl
  | case2 cur hc =>
    intro hcur l hl
    rw [wrapWords.eq_def] at hl
    simp [hc] at hl
    subst hl
    exact hcur
  | case3 cur word ls h0 =>
    intro hcur l hl
    omega
  | case4 cur word ls h0 hc hlen ih =>
    intro hcur l hl
    rw [wrapWords.eq_def] at hl
    simp [h0, hc, hlen] at hl
    exact ih hlen l hl
  | case5 cur word ls h0 hc hlen ih =>
    intro hcur l hl
    rw [wrapWords.eq_def] at hl
    simp [h0, hc, hlen] at hl
    rcases hl with rfl | hl
    · simp [List.length_take]
    · exact ih (by simp) l hl
  | case6 cur word ls h0 hc hfit ih =>
    intro hcur l hl
    rw [wrapWords.eq_def] at hl
    simp [h0, hc, hfit] at hl
    refine ih ?_ l hl
    simp only [List.length_append, List.length_cons]
    omega
  | case7 cur word ls h0 hc hfit hlong ih =>
    intro hcur l hl
    rw [wrapWords.eq_def] at hl
    simp [h0, hc, hfit, hlong] at hl
    rcases hl with rfl | hl
    · simp only [List.length_append, List.length_cons, List.length_take]
      omega
    · exact ih (by simp) l hl
  | case8 cur word ls h0 hc hfit hnlong ih =>
    intro hcur l hl
    rw [wrapWords.eq_def] at hl
    simp [h0, hc, hfit, hnlong] at hl
    rcases hl with rfl | hl
    · exact hcur
    · exact ih (by simp) l hl

/-- A rational with a positive Python `int()` truncation is nonnegative. -/
lemma pythonInt_pos_nonneg (q : ℚ) (h : 0 < pythonInt q) : 0 ≤ q := by
  by_contra hq
  push_neg at hq
  have hnum : q.num < 0 := Rat.num_neg.mpr hq
  have hle : pythonInt q ≤ 0 := by
    unfold pythonInt
    have h1 : q.num = -(-q.num) := by ring
    rw [h1, Int.neg_tdiv]
    have h2 : (0 : ℤ) ≤ (-q.num).tdiv (q.den : ℤ) :=
      Int.tdiv_nonneg (by omega) (by positivity)
    omega
  omega

/-- On nonnegative rationals Python's `int()` truncation agrees with the
mathematical floor. -/
lemma pythonInt_eq_floor (q : ℚ) (h : 0 ≤ q) : pythonInt q = ⌊q⌋ := by
  unfold pythonInt
  rw [Rat.floor_def]
  exact Int.tdiv_eq_ediv (Rat.num_nonneg.mpr h) (by positivity)

/-- Closed form of the drawing loop: the `i`-th drawn line sits at
`y + i * lineHeight`, horizontally centered by its measured width. -/
lemma drawCalls_eq (measure : List Char → ℤ) (width : ℕ) (lh : ℤ) :
    ∀ (ls : List (List Char)) (y : ℤ) (n : ℕ),
      drawCalls measure width lh y ls
        = (List.enumFrom n ls).map (fun p =>
            (Int.fdiv ((width : ℤ) - measure p.2) 2,
             y + ((p.1 : ℤ) - (n : ℤ)) * lh, p.2)) := by
  intro ls
  induction ls with
  | nil =>
    intro y n
    rfl
  | cons l ls ih =>
    intro y n
    rw [drawCalls, List.enumFrom_cons, List.map_cons, ih (y + lh) (n + 1)]
    refine congrArg₂ _ ?_ (List.map_congr_left ?_)
    · simp
    · intro p _
      simp only [Prod.mk.injEq, true_and, and_true]
      push_cast
      ring

/-- C8: The slide renderer splits on explicit newlines, word-wraps each
non-blank paragraph to at most `⌊(width - 200) / (fontsize * 0.6)⌋`
characters per line, keeps blank lines as empty lines, vertically centers
the line block with line height `int(fontsize * 1.5)`, and horizontally
centers each line by its measured bounding-box width. -/
theorem create_text_slide_layout_spec (width height fontsize : ℕ)
    (measure : List Char → ℤ) (text : String)
    (hcpl : 0 < charsPerLine width fontsize) :
    charsPerLine width fontsize
      = ⌊((width : ℚ) - 200) / ((fontsize : ℚ) * (6 / 10))⌋ ∧
    slideLines width fontsize text
      = (splitOnChar '\n' text.data).flatMap (fun p =>
          if pyStripData p = [] then [[]]
          else wrapParagraph (charsPerLine width fontsize).toNat p) ∧
    (∀ l ∈ slideLines width fontsize text,
      (l.length : ℤ) ≤ charsPerLine width fontsize) ∧
    create_text_slide_layout width height fontsize measure text
      = (slideLines width fontsize text).enum.map (fun p =>
          (Int.fdiv ((width : ℤ) - measure p.2) 2,
           Int.fdiv ((height : ℤ)
               - (slideLines width fontsize text).length
                 * lineHeight fontsize) 2
             + (p.1 : ℤ) * lineHeight fontsize,
           p.2)) := by
  refine ⟨pythonInt_eq_floor _ (pythonInt_pos_nonneg _ hcpl), rfl, ?_, ?_⟩
  · intro l hl
    unfold slideLines at hl
    rw [List.mem_flatMap] at hl
    obtain ⟨p, _, hlp⟩ := hl
    by_cases hb : pyStripData p = []
    · simp [hb] at hlp
      rw [hlp]
      simp
      omega
    · simp [hb] at hlp
      have hw : 0 < (charsPerLine width fontsize).toNat := by omega
      have hlen := wrapWords_sublen _ hw [] (pyWords p) (by simp) l hlp
      omega
  · unfold create_text_slide_layout
    rw [drawCalls_eq]
    have henum : (slideLines width fontsize text).enum
        = List.enumFrom 0 (slideLines width fontsize text) := rfl
    rw [henum]
    refine List.map_congr_left ?_
    intro p _
    simp

theorem create_text_slide_layout_spec_witness :
    0 < charsPerLine 1920 70 ∧
    charsPerLine 1920 70
      = ⌊(((1920 : ℕ) : ℚ) - 200) / (((70 : ℕ) : ℚ) * (6 / 10))⌋ ∧
    create_text_slide_layout 1920 1080 70 (fun _ => 100)
        "The Problem:\nBottleneck at the Register"
      = (slideLines 1920 70 "The Problem:\nBottleneck at the Register").enum.map
          (fun p =>
            (Int.fdiv (((1920 : ℕ) : ℤ) - 100) 2,
             Int.fdiv (((1080 : ℕ) : ℤ)
                 - (slideLines 1920 70
                     "The Problem:\nBottleneck at the Register").length
                   * lineHeight 70) 2
               + (p.1 : ℤ) * lineHeight 70,
             p.2)) := by
  have h : (0 : ℤ) < charsPerLine 1920 70 := by
    unfold charsPerLine pythonInt
    norm_num
    decide
  exact ⟨h,
    (create_text_slide_layout_spec 1920 1080 70 (fun _ => 100)
      "The Problem:\nBottleneck at the Register" h).1,
    (create_text_slide_layout_spec 1920 1080 70 (fun _ => 100)
      "The Problem:\nBottleneck at the Register" h).2.2.2⟩

/-- C9: Font resolution is total: when neither system font loads it
falls back to the built-in bitmap font with the fontsize forced to 20, and
every environment yields a usable font. -/
theorem font_resolution_total (env : FontEnv) (fontsize : ℕ) :
    (env.helveticaOk = false → env.arialOk = false →
      resolveFont env fontsize = (FontKind.bitmapDefault, 20)) ∧
    ∃ k n, resolveFont env fontsize = (k, n) := by
  constructor
  · intro hh ha
    simp [resolveFont, hh, ha]
  · exact ⟨_, _, rfl⟩

theorem font_resolution_total_witness :
    (FontEnv.mk false false).helveticaOk = false ∧
    (FontEnv.mk false false).arialOk = false ∧
    resolveFont ⟨false, false⟩ 60 = (FontKind.bitmapDefault, 20) :=
  ⟨rfl, rfl, (font_resolution_total ⟨false, false⟩ 60).1 rfl rfl⟩

end BeanFlow
